import Mathlib

/-!
Shallow embedding of the input-cursor layer of the repository (src/src/stream/mod.rs).

Modelling conventions:
* Rust methods taking `&mut self` become Lean functions `σ → Result × σ`, returning the
  updated stream state alongside the result.
* `FastResult` mirrors `error::FastResult` (ConsumedOk / EmptyOk / ConsumedErr / EmptyErr).
  `Tracked<E>` only adds a debug backtrace to the error, so it is modelled as `E` itself.
* A `&str` cursor is modelled as the list of remaining Unicode scalars together with the
  byte address of the start of the remaining slice (the slice pointer); byte arithmetic
  uses `Char.utf8Size`, which is the UTF-8 byte width Rust uses for `char::len_utf8`.
* A `&[T]` cursor is modelled as the list of remaining items together with the address of
  the remaining slice; the pointer advances by `itemSize` bytes per item
  (`mem::size_of::<T>()`).
* The trait methods of `StreamOnce`/`Resetable`/`Positioned`/`RangeStreamOnce`/
  `FullRangeStream` are bundled into one structure of operations, `StreamOps`; the free
  functions (`uncons`, `uncons_range`, `uncons_while`, `uncons_while1`, `input_at_eof`,
  `wrap_stream_error`, `decode`) are generic over such a bundle, exactly like the Rust
  free functions are generic over `Input: Stream` / `Input: RangeStream`.
* The crate's `error` module is not part of the sources given (only `stream/mod.rs` is),
  so the pieces of it that the stream layer calls are modelled from the spec:
  `ParseError::from_error(position, err)` attaches the current position to the stream
  error ("on failure, attach the cursor's current position to the error"), and
  `ParseError::empty(position)` is a position-only error with no stream-error payload.
-/

namespace Combine

/-- The outcome algebra `error::FastResult`: consumed-or-not crossed with
success-or-failure. -/
inductive FastResult (T E : Type) : Type where
  | ConsumedOk (x : T)
  | EmptyOk (x : T)
  | ConsumedErr (e : E)
  | EmptyErr (e : E)
deriving DecidableEq

/-- `error::StringStreamError`, the stream-error type of `&str` streams; the three
variants used in `stream/mod.rs` are `UnexpectedParse`, `Eoi` and `CharacterBoundary`. -/
inductive StringStreamError : Type where
  | UnexpectedParse
  | Eoi
  | CharacterBoundary
deriving DecidableEq

/-- `error::UnexpectedParse`, the stream-error type of `&[T]` and `SliceStream` streams. -/
inductive UnexpectedParse : Type where
  | Eoi
  | Unexpected
deriving DecidableEq

/-- Modelled from the spec: the crate's `ParseError` values for the plain stream types,
as produced by `ParseError::from_error(position, err)` ("on failure, attach the cursor's
current `position` to the error") and by `ParseError::empty(position)` (no stream-error
payload). The `error` module itself is not among the given sources. -/
structure PosError (π ε : Type) : Type where
  position : π
  error : Option ε
deriving DecidableEq

/-- `ParseError::from_error(position, err)`: pair the position with the stream error. -/
def PosError.from_error (p : π) (e : ε) : PosError π ε := ⟨p, some e⟩

/-- `ParseError::empty(position)`: an error carrying only a position. -/
def PosError.empty (p : π) : PosError π ε := ⟨p, none⟩

/-- The capability bundle of a stream type: the methods of `StreamOnce`, `Resetable`,
`Positioned`, `RangeStreamOnce` and `FullRangeStream`, with `&mut self` methods modelled
as state-passing functions. The checkpoint type is the stream state itself, as in the
`clone_resetable!` macro (`type Checkpoint = Self`). -/
structure StreamOps (σ ι ρ π ε : Type) : Type where
  /-- `StreamOnce::uncons` -/
  uncons : σ → Except ε ι × σ
  /-- `StreamOnce::is_partial` (named without the underscore for Lean) -/
  isPartial : σ → Bool
  /-- `Resetable::checkpoint` -/
  checkpoint : σ → σ
  /-- `Resetable::reset`: first argument the checkpoint, second the current state -/
  reset : σ → σ → σ
  /-- `Positioned::position` -/
  position : σ → π
  /-- `RangeStreamOnce::uncons_range` -/
  uncons_range : Nat → σ → Except ε ρ × σ
  /-- `RangeStreamOnce::uncons_while` -/
  uncons_while : (ι → Bool) → σ → Except ε ρ × σ
  /-- `RangeStreamOnce::uncons_while1` -/
  uncons_while1 : (ι → Bool) → σ → FastResult ρ ε × σ
  /-- `RangeStreamOnce::distance` -/
  distance : σ → σ → Nat
  /-- `FullRangeStream::range` -/
  range : σ → ρ
  /-- `Range::len` of the range type -/
  rangeLen : ρ → Nat
  /-- `StreamError::end_of_input()` at the stream-error type -/
  end_of_input : ε
  /-- `StreamError::unexpected_static_message("")` at the stream-error type -/
  unexpected_message : ε

/-- Free function `wrap_stream_error`: attach the current position to the error; report
consumed-failure when the input is partial, not-consumed-failure otherwise. -/
def wrap_stream_error (ops : StreamOps σ ι ρ π ε) (input : σ) (err : ε) :
    FastResult T (PosError π ε) :=
  let e := PosError.from_error (ops.position input) err
  if ops.isPartial input then .ConsumedErr e else .EmptyErr e

/-- Free function `input_at_eof`: checkpoint, probe one `uncons`, compare against
`StreamError::end_of_input()`, then reset to the checkpoint. -/
def input_at_eof [DecidableEq ε] (ops : StreamOps σ ι ρ π ε) (input : σ) : Bool × σ :=
  let before := ops.checkpoint input
  let (r, s) := ops.uncons input
  let x : Bool :=
    match r with
    | .error e => decide (e = ops.end_of_input)
    | .ok _ => false
  (x, ops.reset before s)

namespace Free

/-- Free function `uncons`: fold the raw `StreamOnce::uncons` result into the outcome
algebra via `wrap_stream_error`. -/
def uncons (ops : StreamOps σ ι ρ π ε) (input : σ) :
    FastResult ι (PosError π ε) × σ :=
  match ops.uncons input with
  | (.ok x, s) => (.ConsumedOk x, s)
  | (.error err, s) => (wrap_stream_error ops s err, s)

/-- Free function `uncons_range`: a successful take of size 0 is `EmptyOk`, any other
successful take is `ConsumedOk`, a failure goes through `wrap_stream_error`. -/
def uncons_range (ops : StreamOps σ ι ρ π ε) (size : Nat) (input : σ) :
    FastResult ρ (PosError π ε) × σ :=
  match ops.uncons_range size input with
  | (.error err, s) => (wrap_stream_error ops s err, s)
  | (.ok x, s) => if size = 0 then (.EmptyOk x, s) else (.ConsumedOk x, s)

/-- Free function `uncons_while`, including the partial-input end-of-file correction:
after a successful inner call, a partial input that now sits at end of input yields
`ConsumedErr` carrying `end_of_input`. The `is_partial` check short-circuits before the
`input_at_eof` probe, as in `input.is_partial() && input_at_eof(input)`. -/
def uncons_while [DecidableEq ε] (ops : StreamOps σ ι ρ π ε) (predicate : ι → Bool)
    (input : σ) : FastResult ρ (PosError π ε) × σ :=
  match ops.uncons_while predicate input with
  | (.error err, s) => (wrap_stream_error ops s err, s)
  | (.ok x, s) =>
    if ops.isPartial s then
      let (atEof, s2) := input_at_eof ops s
      if atEof then
        (.ConsumedErr (PosError.from_error (ops.position s2) ops.end_of_input), s2)
      else if ops.rangeLen x = 0 then (.EmptyOk x, s2)
      else (.ConsumedOk x, s2)
    else if ops.rangeLen x = 0 then (.EmptyOk x, s)
    else (.ConsumedOk x, s)

/-- Free function `uncons_while1`, including the partial-input end-of-file correction in
each of the three reachable branches of the inner `FastResult`. The `EmptyOk` branch is
`unreachable!()` in the source (it panics); it is mapped to itself here and is proved
never to occur for the streams of this repository. -/
def uncons_while1 [DecidableEq ε] (ops : StreamOps σ ι ρ π ε) (predicate : ι → Bool)
    (input : σ) : FastResult ρ (PosError π ε) × σ :=
  match ops.uncons_while1 predicate input with
  | (.ConsumedOk x, s) =>
    if ops.isPartial s then
      let (atEof, s2) := input_at_eof ops s
      if atEof then
        (.ConsumedErr (PosError.from_error (ops.position s2) ops.end_of_input), s2)
      else (.ConsumedOk x, s2)
    else (.ConsumedOk x, s)
  | (.EmptyErr _, s) =>
    if ops.isPartial s then
      let (atEof, s2) := input_at_eof ops s
      if atEof then
        (.ConsumedErr (PosError.from_error (ops.position s2) ops.end_of_input), s2)
      else (.EmptyErr (PosError.empty (ops.position s2)), s2)
    else (.EmptyErr (PosError.empty (ops.position s)), s)
  | (.ConsumedErr err, s) =>
    if ops.isPartial s then
      let (atEof, s2) := input_at_eof ops s
      if atEof then
        (.ConsumedErr (PosError.from_error (ops.position s2) ops.end_of_input), s2)
      else (wrap_stream_error ops s2 err, s2)
    else (wrap_stream_error ops s err, s)
  | (.EmptyOk x, s) => (.EmptyOk x, s)

end Free

/-- `PartialStream<S>`: every operation delegates to the inner stream unchanged, and
`is_partial` always returns true. Since every delegated method acts on the same inner
state, the wrapped stream shares the state type of the inner stream. -/
def PartialStream (ops : StreamOps σ ι ρ π ε) : StreamOps σ ι ρ π ε where
  uncons := ops.uncons
  isPartial := fun _ => true
  checkpoint := ops.checkpoint
  reset := ops.reset
  position := ops.position
  uncons_range := ops.uncons_range
  uncons_while := ops.uncons_while
  uncons_while1 := ops.uncons_while1
  distance := ops.distance
  range := ops.range
  rangeLen := ops.rangeLen
  end_of_input := ops.end_of_input
  unexpected_message := ops.unexpected_message

/-- Written from the spec's words, for comparison with the source translation
`PartialStream`: "delegates every capability to an inner cursor unchanged except
`is_partial()`, which always returns true". -/
def PartialStreamSpec (ops : StreamOps σ ι ρ π ε) : StreamOps σ ι ρ π ε :=
  { ops with isPartial := fun _ => true }

/-- Byte length of a list of Unicode scalars in UTF-8, i.e. `str::len` of the `&str`
holding them (`Char.utf8Size` is Rust's `char::len_utf8`). -/
def utf8Len (l : List Char) : Nat := (l.map Char.utf8Size).sum

/-- A `&str` cursor: the remaining scalars plus the byte address of the start of the
remaining slice (the slice pointer, as used by `PointerOffset`). -/
structure StrStream : Type where
  addr : Nat
  chars : List Char
deriving DecidableEq

/-- `str_uncons_while`: split off the maximal leading run of scalars satisfying the
predicate. The source scans with an unrolled loop and splits the slice at the byte
offset where the scan stopped; on valid UTF-8 that byte offset is exactly the byte
length of the matched scalars, so the split is the (takeWhile, dropWhile) split. -/
def str_uncons_while (p : Char → Bool) (l : List Char) : List Char × List Char :=
  (l.takeWhile p, l.dropWhile p)

/-- Split the first `n` BYTES off a scalar list: `some (a, b)` when `n` lands exactly on
a scalar boundary (`utf8Len a = n`), `none` when `n` would split a scalar or runs past
the end. This is `str::split_at(n)` guarded by `is_char_boundary`: on valid UTF-8, byte
index `n` holds a non-continuation byte exactly when `n` is the byte length of a prefix
of the scalar sequence. -/
def takeBytes : Nat → List Char → Option (List Char × List Char)
  | 0, l => some ([], l)
  | _ + 1, [] => none
  | n + 1, c :: cs =>
    if c.utf8Size ≤ n + 1 then
      match takeBytes (n + 1 - c.utf8Size) cs with
      | some (a, b) => some (c :: a, b)
      | none => none
    else none

/-- The `&str` stream: `impl StreamOnce/Resetable/Positioned/RangeStreamOnce/
FullRangeStream for &'a str`. `Item = char`, `Range = &'a str` (modelled as the scalar
list, with `Range::len` the byte length), `Position = PointerOffset`,
`Error = StringStreamError`. -/
def strOps : StreamOps StrStream Char (List Char) Nat StringStreamError where
  uncons s :=
    match s.chars with
    | [] => (.error .Eoi, s)
    | c :: cs => (.ok c, ⟨s.addr + c.utf8Size, cs⟩)
  isPartial _ := false
  checkpoint s := s
  reset cp _ := cp
  position s := s.addr
  uncons_range size s :=
    if size ≤ utf8Len s.chars then
      match takeBytes size s.chars with
      | some (a, b) => (.ok a, ⟨s.addr + size, b⟩)
      | none => (.error .CharacterBoundary, s)
    else (.error .Eoi, s)
  uncons_while p s :=
    let (a, b) := str_uncons_while p s.chars
    (.ok a, ⟨s.addr + utf8Len a, b⟩)
  uncons_while1 p s :=
    match s.chars with
    | [] => (.EmptyErr .UnexpectedParse, s)
    | c :: cs =>
      if p c then
        let (a, b) := str_uncons_while p cs
        (.ConsumedOk (c :: a), ⟨s.addr + c.utf8Size + utf8Len a, b⟩)
      else (.EmptyErr .UnexpectedParse, s)
  distance s e := s.addr - e.addr
  range s := s.chars
  rangeLen := utf8Len
  end_of_input := .Eoi
  unexpected_message := .UnexpectedParse

/-- A `&[T]` cursor: the remaining items plus the address of the remaining slice.
The pointer advances by the item's byte size per consumed item. -/
structure ListStream (T : Type) : Type where
  addr : Nat
  items : List T
deriving DecidableEq

/-- `slice_uncons_while(slice, i, f)`: the first `i` items are kept unconditionally (the
caller has already tested them), then the scan extends the run while the predicate
holds; the slice is split where the scan stopped. -/
def slice_uncons_while (i : Nat) (p : T → Bool) (l : List T) : List T × List T :=
  (l.take i ++ (l.drop i).takeWhile p, (l.drop i).dropWhile p)

/-- The `&[T]` stream: `impl StreamOnce/Resetable/Positioned/RangeStreamOnce/
FullRangeStream for &'a [T]`. `Item = T`, `Range = &'a [T]`, `Position = PointerOffset`,
`Error = UnexpectedParse`. `itemSize` is `mem::size_of::<T>()`, the amount the slice
pointer advances per item. -/
def listOps (T : Type) (itemSize : Nat) :
    StreamOps (ListStream T) T (List T) Nat UnexpectedParse where
  uncons s :=
    match s.items with
    | [] => (.error .Eoi, s)
    | x :: xs => (.ok x, ⟨s.addr + itemSize, xs⟩)
  isPartial _ := false
  checkpoint s := s
  reset cp _ := cp
  position s := s.addr
  uncons_range size s :=
    if size ≤ s.items.length then
      (.ok (s.items.take size), ⟨s.addr + size * itemSize, s.items.drop size⟩)
    else (.error .Eoi, s)
  uncons_while p s :=
    let (a, b) := slice_uncons_while 0 p s.items
    (.ok a, ⟨s.addr + a.length * itemSize, b⟩)
  uncons_while1 p s :=
    match s.items with
    | [] => (.EmptyErr .Unexpected, s)
    | x :: _ =>
      if p x then
        let (a, b) := slice_uncons_while 1 p s.items
        (.ConsumedOk a, ⟨s.addr + a.length * itemSize, b⟩)
      else (.EmptyErr .Unexpected, s)
  distance s e := e.items.length - s.items.length
  range s := s.items
  rangeLen := List.length
  end_of_input := .Eoi
  unexpected_message := .Unexpected

/-- `SliceStream<'a, T>` behaves item-for-item like `&'a [T]`: `uncons` is `split_first`,
`uncons_range` a length-guarded `split_at`, `uncons_while`/`uncons_while1` use
`slice_uncons_while_ref` (the by-reference twin of `slice_uncons_while`), and `distance`
subtracts remaining lengths; its items are `&'a T` instead of `T`, which the embedding
flattens. -/
def sliceOps (T : Type) (itemSize : Nat) : StreamOps (ListStream T) T (List T) Nat
    UnexpectedParse :=
  listOps T itemSize

/-- The provided (default) body of `RangeStreamOnce::uncons_while1`: run `uncons_while`
with a closure that also records, in a captured `consumed` flag, whether any item passed
the predicate; report `ConsumedOk` when the flag is set and a not-consumed failure with
`unexpected_static_message("")` otherwise. Stated for streams whose `uncons_while`
splits off the maximal matching run over a list of items (every slice-backed stream of
this repository); the captured flag is threaded explicitly through the scan. -/
def spanFlag (p : ι → Bool) : List ι → Bool → (List ι × List ι) × Bool
  | [], consumed => (([], []), consumed)
  | c :: cs, consumed =>
    let ok := p c
    let consumed2 := consumed || ok
    if ok then
      let ((a, b), c3) := spanFlag p cs consumed2
      ((c :: a, b), c3)
    else (([], c :: cs), consumed2)

/-- See `spanFlag`: the default `uncons_while1` at the list level. -/
def default_uncons_while1 (unexpectedMsg : ε) (p : ι → Bool) (l : List ι) :
    FastResult (List ι) ε × List ι :=
  let r := spanFlag p l false
  if r.2 then (.ConsumedOk r.1.1, r.1.2) else (.EmptyErr unexpectedMsg, r.1.2)

/-- The free function `decode` (via `decode_mut`): checkpoint, run
`parser.parse_with_state`, and classify the outcome. The `Parser` trait is not among the
given sources, so a parser is modelled as a state-passing function on the stream state
and the partial state; `ParseError::is_unexpected_end_of_input` is likewise modelled
from the spec as a predicate `ueoi` on errors ("the error specifically signals
unexpected end-of-input"). -/
def decode (ops : StreamOps σ ι ρ π ε) (ueoi : PosError π ε → Bool)
    (parser : σ → PS → Except (PosError π ε) α × σ × PS)
    (input : σ) (partialState : PS) :
    Except (PosError π ε) (Option α × Nat) × σ × PS :=
  let start := ops.checkpoint input
  match parser input partialState with
  | (.ok message, s, ps2) => (.ok (some message, ops.distance s start), s, ps2)
  | (.error err, s, ps2) =>
    if ops.isPartial s && ueoi err then
      (.ok (none, ops.distance s start), s, ps2)
    else (.error err, s, ps2)

/-! ### Helper lemmas -/

theorem utf8Len_nil : utf8Len [] = 0 := rfl

theorem utf8Len_cons (c : Char) (l : List Char) :
    utf8Len (c :: l) = c.utf8Size + utf8Len l := by
  simp [utf8Len]

theorem utf8Len_append (a b : List Char) : utf8Len (a ++ b) = utf8Len a + utf8Len b := by
  simp [utf8Len]

theorem utf8Len_eq_zero {l : List Char} : utf8Len l = 0 ↔ l = [] := by
  cases l with
  | nil => simp [utf8Len_nil]
  | cons c cs =>
    simp only [utf8Len_cons, List.cons_ne_nil, iff_false]
    have := Char.utf8Size_pos c
    omega

theorem takeBytes_eq_some {n : Nat} {l a b : List Char} :
    takeBytes n l = some (a, b) ↔ (l = a ++ b ∧ utf8Len a = n) := by
  constructor
  · intro h
    induction l generalizing n a b with
    | nil =>
      cases n with
      | zero =>
        simp only [takeBytes, Option.some.injEq, Prod.mk.injEq] at h
        simp [← h.1, ← h.2, utf8Len_nil]
      | succ m => simp [takeBytes] at h
    | cons c cs ih =>
      cases n with
      | zero =>
        simp only [takeBytes, Option.some.injEq, Prod.mk.injEq] at h
        simp [← h.1, ← h.2, utf8Len_nil]
      | succ m =>
        simp only [takeBytes] at h
        split at h
        · rename_i hle
          split at h
          · rename_i a2 b2 heq
            simp only [Option.some.injEq, Prod.mk.injEq] at h
            obtain ⟨ha, hb⟩ := h
            obtain ⟨h1, h2⟩ := ih heq
            subst ha hb h1
            refine ⟨rfl, ?_⟩
            rw [utf8Len_cons]
            omega
          · exact absurd h (by simp)
        · exact absurd h (by simp)
  · rintro ⟨rfl, rfl⟩
    induction a generalizing b with
    | nil => simp [takeBytes, utf8Len_nil]
    | cons c cs ih =>
      have hpos := Char.utf8Size_pos c
      obtain ⟨k, hk⟩ : ∃ k, utf8Len (c :: cs) = k + 1 := by
        rw [utf8Len_cons]; exact ⟨c.utf8Size + utf8Len cs - 1, by omega⟩
      rw [hk]
      show takeBytes (k + 1) (c :: (cs ++ b)) = some (c :: cs, b)
      simp only [takeBytes]
      rw [if_pos (by rw [utf8Len_cons] at hk; omega)]
      have h2 : k + 1 - c.utf8Size = utf8Len cs := by rw [utf8Len_cons] at hk; omega
      rw [h2, ih]

theorem takeBytes_zero (l : List Char) : takeBytes 0 l = some ([], l) := by
  simp [takeBytes]

/-- `spanFlag` threads the default `uncons_while1`'s captured `consumed` flag through the
maximal-run scan: the split is the (takeWhile, dropWhile) split and the flag records
whether the matched run is non-empty. -/
theorem spanFlag_eq (p : ι → Bool) (l : List ι) (b : Bool) :
    spanFlag p l b = ((l.takeWhile p, l.dropWhile p), b || !(l.takeWhile p).isEmpty) := by
  induction l generalizing b with
  | nil => simp [spanFlag]
  | cons c cs ih =>
    by_cases hc : p c
    · simp [spanFlag, hc, ih, List.takeWhile_cons, List.dropWhile_cons]
    · simp [spanFlag, hc, List.takeWhile_cons, List.dropWhile_cons,
        Bool.or_false]

theorem dropWhile_eq_self_of_takeWhile_eq_nil {p : ι → Bool} {l : List ι}
    (h : l.takeWhile p = []) : l.dropWhile p = l := by
  cases l with
  | nil => rfl
  | cons c cs =>
    by_cases hc : p c
    · simp [List.takeWhile_cons, hc] at h
    · simp [List.dropWhile_cons, hc]

theorem takeWhile_length_add_dropWhile_length (p : ι → Bool) (l : List ι) :
    (l.takeWhile p).length + (l.dropWhile p).length = l.length := by
  rw [← List.length_append, List.takeWhile_append_dropWhile]

/-- If `n` bytes end strictly inside the scalar `c` of the sequence `a ++ c :: b2`
(more than the bytes of `a`, fewer than those of `a` plus all of `c`), then the
byte-split fails: the offset is not a scalar boundary. -/
theorem takeBytes_eq_none_inside {a : List Char} {c : Char} {b2 : List Char} {n : Nat}
    (h1 : utf8Len a < n) (h2 : n < utf8Len a + c.utf8Size) :
    takeBytes n (a ++ c :: b2) = none := by
  induction a generalizing n with
  | nil =>
    rw [utf8Len_nil] at h1 h2
    obtain ⟨m, rfl⟩ : ∃ m, n = m + 1 := ⟨n - 1, by omega⟩
    simp only [List.nil_append, takeBytes]
    rw [if_neg (by omega)]
  | cons d a2 ih =>
    rw [utf8Len_cons] at h1 h2
    have hd := Char.utf8Size_pos d
    obtain ⟨m, rfl⟩ : ∃ m, n = m + 1 := ⟨n - 1, by omega⟩
    simp only [List.cons_append, takeBytes]
    rw [if_pos (by omega)]
    simp only [List.append_eq]
    rw [ih (by omega) (by omega)]

/-! ### Claim theorems -/

/-- Claim C8: for every inner stream and every operation (`uncons`, `uncons_range`,
`uncons_while`, `uncons_while1`, `distance`, `position`, `checkpoint`, `reset`,
`range`), `PartialStream<S>` returns the same result and performs the same state change
as the inner stream itself, with `is_partial()` always true on the wrapper while the
unwrapped streams keep the trait default of false; moreover the source wrapper coincides
with the wrapper written from the spec's words (`PartialStreamSpec`). -/
theorem c8_partial_stream_delegates {σ ι ρ π ε : Type} (ops : StreamOps σ ι ρ π ε)
    (s : σ) (t : StrStream) (T : Type) (itemSize : Nat) (u : ListStream T) :
    (PartialStream ops).uncons = ops.uncons
    ∧ (PartialStream ops).uncons_range = ops.uncons_range
    ∧ (PartialStream ops).uncons_while = ops.uncons_while
    ∧ (PartialStream ops).uncons_while1 = ops.uncons_while1
    ∧ (PartialStream ops).distance = ops.distance
    ∧ (PartialStream ops).position = ops.position
    ∧ (PartialStream ops).checkpoint = ops.checkpoint
    ∧ (PartialStream ops).reset = ops.reset
    ∧ (PartialStream ops).range = ops.range
    ∧ (PartialStream ops).isPartial s = true
    ∧ strOps.isPartial t = false
    ∧ (listOps T itemSize).isPartial u = false
    ∧ (sliceOps T itemSize).isPartial u = false
    ∧ PartialStream ops = PartialStreamSpec ops :=
  ⟨rfl, rfl, rfl, rfl, rfl, rfl, rfl, rfl, rfl, rfl, rfl, rfl, rfl, rfl⟩

/-- Claim C9: for the slice-backed cursors (`&str`, `&[T]`, `SliceStream`),
`checkpoint()` returns a copy of the cursor, `reset(C)` restores exactly the state
captured in `C` no matter what state the cursor reached afterwards (so every later
operation behaves as if no consumption had happened since `C`), and applying `reset(C)`
twice yields the same state as applying it once. -/
theorem c9_checkpoint_reset (t t2 : StrStream) (T : Type) (itemSize : Nat)
    (u u2 : ListStream T) :
    strOps.checkpoint t = t
    ∧ strOps.reset (strOps.checkpoint t) t2 = t
    ∧ strOps.reset (strOps.checkpoint t) (strOps.reset (strOps.checkpoint t) t2)
        = strOps.reset (strOps.checkpoint t) t2
    ∧ (listOps T itemSize).checkpoint u = u
    ∧ (listOps T itemSize).reset ((listOps T itemSize).checkpoint u) u2 = u
    ∧ (listOps T itemSize).reset ((listOps T itemSize).checkpoint u)
        ((listOps T itemSize).reset ((listOps T itemSize).checkpoint u) u2)
        = (listOps T itemSize).reset ((listOps T itemSize).checkpoint u) u2
    ∧ (sliceOps T itemSize).checkpoint u = u
    ∧ (sliceOps T itemSize).reset ((sliceOps T itemSize).checkpoint u) u2 = u :=
  ⟨rfl, rfl, rfl, rfl, rfl, rfl, rfl, rfl⟩

/-- Claim C5: for each free function folding a raw cursor operation into the outcome
algebra (`uncons`, `uncons_range`, `uncons_while`), a failure of the underlying
operation is wrapped by `wrap_stream_error`: the error carries the cursor's current
position, and the outcome is consumed-failure exactly when `is_partial()` is true and
not-consumed-failure when it is false. -/
theorem c5_wrap_failure {σ ι ρ π ε : Type} [DecidableEq ε] (ops : StreamOps σ ι ρ π ε)
    (input s : σ) (err : ε) :
    (ops.uncons input = (.error err, s) →
      Free.uncons ops input =
        ((if ops.isPartial s then
            FastResult.ConsumedErr (PosError.from_error (ops.position s) err)
          else .EmptyErr (PosError.from_error (ops.position s) err)), s))
    ∧ (∀ size, ops.uncons_range size input = (.error err, s) →
        Free.uncons_range ops size input =
          ((if ops.isPartial s then
              FastResult.ConsumedErr (PosError.from_error (ops.position s) err)
            else .EmptyErr (PosError.from_error (ops.position s) err)), s))
    ∧ (∀ p : ι → Bool, ops.uncons_while p input = (.error err, s) →
        Free.uncons_while ops p input =
          ((if ops.isPartial s then
              FastResult.ConsumedErr (PosError.from_error (ops.position s) err)
            else .EmptyErr (PosError.from_error (ops.position s) err)), s)) := by
  refine ⟨fun h => ?_, fun size h => ?_, fun p h => ?_⟩
  · simp [Free.uncons, h, wrap_stream_error]
  · simp [Free.uncons_range, h, wrap_stream_error]
  · simp [Free.uncons_while, h, wrap_stream_error]

/-- Witness for C5 at a concrete input: `uncons` on an exhausted `&str` cursor at
position 7, plain and partial-wrapped. -/
theorem c5_wrap_failure_witness :
    Free.uncons strOps ⟨7, []⟩ =
      ((if strOps.isPartial ⟨7, []⟩ then
          FastResult.ConsumedErr (PosError.from_error (strOps.position ⟨7, []⟩)
            StringStreamError.Eoi)
        else .EmptyErr (PosError.from_error (strOps.position ⟨7, []⟩) .Eoi)), ⟨7, []⟩)
    ∧ Free.uncons (PartialStream strOps) ⟨7, []⟩ =
      ((if (PartialStream strOps).isPartial ⟨7, []⟩ then
          FastResult.ConsumedErr (PosError.from_error ((PartialStream strOps).position
            ⟨7, []⟩) StringStreamError.Eoi)
        else .EmptyErr (PosError.from_error ((PartialStream strOps).position ⟨7, []⟩)
          .Eoi)), ⟨7, []⟩) :=
  ⟨(c5_wrap_failure strOps ⟨7, []⟩ ⟨7, []⟩ .Eoi).1 rfl,
   (c5_wrap_failure (PartialStream strOps) ⟨7, []⟩ ⟨7, []⟩ .Eoi).1 rfl⟩

/-- Claim C7: the free `uncons_range` with size 0 is not-consumed-success; on the
concrete range streams a zero-size take succeeds with the empty range and an unchanged
cursor even at end of input (the state binder covers the empty stream), and every
successful take of positive size is consumed-success. -/
theorem c7_zero_size_range {σ ι ρ π ε : Type} (ops : StreamOps σ ι ρ π ε) (input : σ)
    (T : Type) (itemSize : Nat) :
    (∀ x s, ops.uncons_range 0 input = (.ok x, s) →
        Free.uncons_range ops 0 input = (.EmptyOk x, s))
    ∧ (∀ size x s, 0 < size → ops.uncons_range size input = (.ok x, s) →
        Free.uncons_range ops size input = (.ConsumedOk x, s))
    ∧ (∀ t : StrStream, Free.uncons_range strOps 0 t = (.EmptyOk [], t))
    ∧ (∀ u : ListStream T, Free.uncons_range (listOps T itemSize) 0 u
        = (.EmptyOk [], u)) := by
  refine ⟨fun x s h => ?_, fun size x s hpos h => ?_, fun t => ?_, fun u => ?_⟩
  · simp [Free.uncons_range, h]
  · simp [Free.uncons_range, h, Nat.pos_iff_ne_zero.mp hpos]
  · simp [Free.uncons_range, strOps, takeBytes_zero]
  · simp [Free.uncons_range, listOps]

/-- Witness for C7 at concrete inputs: zero-size take on an empty `&str` cursor and a
positive-size take on a slice cursor. -/
theorem c7_zero_size_range_witness :
    Free.uncons_range strOps 0 ⟨0, []⟩ = (.EmptyOk [], ⟨0, []⟩)
    ∧ Free.uncons_range (listOps Nat 4) 2 ⟨0, [1, 2, 3]⟩
        = (.ConsumedOk [1, 2], ⟨8, [3]⟩) :=
  ⟨(c7_zero_size_range strOps (⟨0, []⟩ : StrStream) Nat 4).2.2.1 ⟨0, []⟩,
   (c7_zero_size_range (listOps Nat 4) (⟨0, [1, 2, 3]⟩ : ListStream Nat) Nat 4).2.1
     2 [1, 2] ⟨8, [3]⟩ (by decide) rfl⟩

/-- Claim C10: `input_at_eof` takes a checkpoint, probes one `uncons`, and resets to the
checkpoint, so for every stream whose checkpoint is a copy of the state and whose reset
restores the checkpoint (all streams here) the state is returned unchanged; on the
concrete cursors the returned flag is exactly whether the remaining input is empty. -/
theorem c10_input_at_eof_frame {σ ι ρ π ε : Type} [DecidableEq ε]
    (ops : StreamOps σ ι ρ π ε) (input : σ) (T : Type) (itemSize : Nat) :
    ((∀ s, ops.checkpoint s = s) → (∀ cp s, ops.reset cp s = cp) →
      (input_at_eof ops input).2 = input)
    ∧ (∀ t : StrStream, input_at_eof strOps t = (t.chars.isEmpty, t))
    ∧ (∀ t : StrStream, input_at_eof (PartialStream strOps) t
        = (t.chars.isEmpty, t))
    ∧ (∀ u : ListStream T, input_at_eof (listOps T itemSize) u
        = (u.items.isEmpty, u)) := by
  refine ⟨fun h1 h2 => ?_, fun t => ?_, fun t => ?_, fun u => ?_⟩
  · rcases hu : ops.uncons input with ⟨r, s⟩
    simp [input_at_eof, hu, h1, h2]
  · obtain ⟨a, l⟩ := t
    cases l <;> simp [input_at_eof, strOps, PartialStream]
  · obtain ⟨a, l⟩ := t
    cases l <;> simp [input_at_eof, strOps, PartialStream]
  · obtain ⟨a, l⟩ := u
    cases l <;> simp [input_at_eof, listOps, PartialStream]

/-- Witness for C10 at a concrete input: the probe leaves a two-scalar `&str` cursor
unchanged. -/
theorem c10_input_at_eof_frame_witness :
    (input_at_eof strOps ⟨5, ['a', 'b']⟩).2 = ⟨5, ['a', 'b']⟩ :=
  (c10_input_at_eof_frame strOps (⟨5, ['a', 'b']⟩ : StrStream) Nat 1).1
    (fun _ => rfl) (fun _ _ => rfl)

/-- Claim C3: for the range streams of the repository, the method `uncons_while1` with
a predicate matching zero leading items (including the empty stream) reports
not-consumed-failure with the cursor untouched; with a predicate matching the first
item it reports consumed-success whose range is the maximal matching run (the
takeWhile of the remaining input) with the cursor positioned right after it; and it
never returns not-consumed-success (`EmptyOk`). Stated for the `&str` override, the
`&[T]`/`SliceStream` override, and the trait-provided default at the list level. -/
theorem c3_uncons_while1_method (p : Char → Bool) (s : StrStream) (T : Type)
    (itemSize : Nat) (q : T → Bool) (u : ListStream T) {ι ε : Type} (msg : ε)
    (pl : ι → Bool) (l : List ι) :
    (s.chars = [] → strOps.uncons_while1 p s = (.EmptyErr .UnexpectedParse, s))
    ∧ (∀ c cs, s.chars = c :: cs → p c = false →
        strOps.uncons_while1 p s = (.EmptyErr .UnexpectedParse, s))
    ∧ (∀ c cs, s.chars = c :: cs → p c = true →
        strOps.uncons_while1 p s = (.ConsumedOk (s.chars.takeWhile p),
          ⟨s.addr + utf8Len (s.chars.takeWhile p), s.chars.dropWhile p⟩))
    ∧ (∀ x, (strOps.uncons_while1 p s).1 ≠ .EmptyOk x)
    ∧ (u.items = [] →
        (listOps T itemSize).uncons_while1 q u = (.EmptyErr .Unexpected, u))
    ∧ (∀ c cs, u.items = c :: cs → q c = false →
        (listOps T itemSize).uncons_while1 q u = (.EmptyErr .Unexpected, u))
    ∧ (∀ c cs, u.items = c :: cs → q c = true →
        (listOps T itemSize).uncons_while1 q u = (.ConsumedOk (u.items.takeWhile q),
          ⟨u.addr + (u.items.takeWhile q).length * itemSize, u.items.dropWhile q⟩))
    ∧ (∀ x, ((listOps T itemSize).uncons_while1 q u).1 ≠ .EmptyOk x)
    ∧ (l.takeWhile pl = [] → default_uncons_while1 msg pl l = (.EmptyErr msg, l))
    ∧ (l.takeWhile pl ≠ [] → default_uncons_while1 msg pl l
        = (.ConsumedOk (l.takeWhile pl), l.dropWhile pl))
    ∧ (∀ x, (default_uncons_while1 msg pl l).1 ≠ .EmptyOk x) := by
  obtain ⟨a, sl⟩ := s
  obtain ⟨ua, ul⟩ := u
  refine ⟨?_, ?_, ?_, ?_, ?_, ?_, ?_, ?_, ?_, ?_, ?_⟩
  · rintro rfl; rfl
  · rintro c cs rfl hpc
    simp [strOps, hpc]
  · rintro c cs rfl hpc
    simp [strOps, str_uncons_while, hpc, List.takeWhile_cons, List.dropWhile_cons,
      utf8Len_cons, Nat.add_assoc]
  · intro x
    cases sl with
    | nil => simp [strOps]
    | cons c cs =>
      by_cases hpc : p c <;> simp [strOps, hpc, str_uncons_while]
  · rintro rfl; rfl
  · rintro c cs rfl hqc
    simp [listOps, hqc]
  · rintro c cs rfl hqc
    simp [listOps, slice_uncons_while, hqc, List.takeWhile_cons, List.dropWhile_cons]
    omega
  · intro x
    cases ul with
    | nil => simp [listOps]
    | cons c cs =>
      by_cases hqc : q c <;> simp [listOps, hqc, slice_uncons_while]
  · intro h
    simp [default_uncons_while1, spanFlag_eq, h, dropWhile_eq_self_of_takeWhile_eq_nil h]
  · intro h
    simp [default_uncons_while1, spanFlag_eq, h]
  · intro x
    by_cases h : l.takeWhile pl = [] <;>
      simp [default_uncons_while1, spanFlag_eq, h]

/-- Witness for C3 at concrete inputs: digits parsed off "123a", a failing first item,
and the default implementation on a slice of naturals. -/
theorem c3_uncons_while1_method_witness :
    strOps.uncons_while1 (fun c => c.isDigit) ⟨0, ['1', '2', '3', 'a']⟩
      = (.ConsumedOk ['1', '2', '3'], ⟨3, ['a']⟩)
    ∧ strOps.uncons_while1 (fun c => c.isDigit) ⟨0, ['a', '1']⟩
      = (.EmptyErr .UnexpectedParse, ⟨0, ['a', '1']⟩)
    ∧ default_uncons_while1 UnexpectedParse.Unexpected (fun n => decide (n < 3))
        [1, 2, 7] = (.ConsumedOk [1, 2], [7]) := by
  refine ⟨?_, ?_, ?_⟩
  · have h := (c3_uncons_while1_method (fun c => c.isDigit)
      ⟨0, ['1', '2', '3', 'a']⟩ Nat 1 (fun _ => true) ⟨0, []⟩
      UnexpectedParse.Unexpected (fun _ => true) ([] : List Nat)).2.2.1
      '1' ['2', '3', 'a'] rfl (by decide)
    simpa using h
  · exact (c3_uncons_while1_method (fun c => c.isDigit) ⟨0, ['a', '1']⟩ Nat 1
      (fun _ => true) ⟨0, []⟩ UnexpectedParse.Unexpected (fun _ => true)
      ([] : List Nat)).2.1 'a' ['1'] rfl (by decide)
  · have h := (c3_uncons_while1_method (fun _ => true) ⟨0, []⟩ Nat 1 (fun _ => true)
      ⟨0, []⟩ UnexpectedParse.Unexpected (fun n => decide (n < 3))
      [1, 2, 7]).2.2.2.2.2.2.2.2.2.1 (by decide)
    simpa using h

/-- Claim C6: `&str::uncons_range` fails with `Eoi` when the requested byte size
exceeds the remaining byte length, fails with `CharacterBoundary` when the size lands
strictly inside a multi-byte scalar, succeeds with exactly the first `size` bytes when
the size is the byte length of a scalar run at the head, and leaves the cursor
unmodified on every failure; `&[T]::uncons_range` fails with `Eoi` exactly when the
size exceeds the remaining item count, leaving the cursor unmodified. -/
theorem c6_uncons_range_boundaries (s : StrStream) (size : Nat) (T : Type)
    (itemSize : Nat) (u : ListStream T) :
    (utf8Len s.chars < size → strOps.uncons_range size s = (.error .Eoi, s))
    ∧ (∀ a c b2, s.chars = a ++ c :: b2 → utf8Len a < size →
        size < utf8Len a + c.utf8Size →
        strOps.uncons_range size s = (.error .CharacterBoundary, s))
    ∧ (∀ a b, s.chars = a ++ b → utf8Len a = size →
        strOps.uncons_range size s = (.ok a, ⟨s.addr + size, b⟩))
    ∧ (u.items.length < size →
        (listOps T itemSize).uncons_range size u = (.error .Eoi, u))
    ∧ (size ≤ u.items.length →
        (listOps T itemSize).uncons_range size u
          = (.ok (u.items.take size), ⟨u.addr + size * itemSize, u.items.drop size⟩)) := by
  refine ⟨fun h => ?_, fun a c b2 hsplit h1 h2 => ?_, fun a b hsplit hlen => ?_,
    fun h => ?_, fun h => ?_⟩
  · simp [strOps, Nat.not_le.mpr h]
  · have hnone : takeBytes size s.chars = none := by
      rw [hsplit]; exact takeBytes_eq_none_inside h1 h2
    have hle : size ≤ utf8Len s.chars := by
      rw [hsplit, utf8Len_append, utf8Len_cons]; omega
    simp [strOps, hle, hnone]
  · have hsome : takeBytes size s.chars = some (a, b) :=
      takeBytes_eq_some.mpr ⟨hsplit, hlen⟩
    have hle : size ≤ utf8Len s.chars := by
      rw [hsplit, utf8Len_append]; omega
    simp [strOps, hle, hsome]
  · simp [listOps, Nat.not_le.mpr h]
  · simp [listOps, h]

/-- Witness for C6 at concrete inputs: the two-byte scalar at the head of a text slice
makes a 1-byte take fail on the boundary, a 2-byte take succeed, and a 4-byte take
overrun; a slice of naturals overruns at 3 items. -/
theorem c6_uncons_range_boundaries_witness :
    strOps.uncons_range 1 ⟨0, ['¬', 'a']⟩ = (.error .CharacterBoundary, ⟨0, ['¬', 'a']⟩)
    ∧ strOps.uncons_range 2 ⟨0, ['¬', 'a']⟩ = (.ok ['¬'], ⟨2, ['a']⟩)
    ∧ strOps.uncons_range 4 ⟨0, ['¬', 'a']⟩ = (.error .Eoi, ⟨0, ['¬', 'a']⟩)
    ∧ (listOps Nat 1).uncons_range 3 ⟨0, [5, 6]⟩ = (.error .Eoi, ⟨0, [5, 6]⟩) := by
  refine ⟨?_, ?_, ?_, ?_⟩
  · exact (c6_uncons_range_boundaries ⟨0, ['¬', 'a']⟩ 1 Nat 1 ⟨0, []⟩).2.1
      [] '¬' ['a'] rfl (by decide) (by decide)
  · exact (c6_uncons_range_boundaries ⟨0, ['¬', 'a']⟩ 2 Nat 1 ⟨0, []⟩).2.2.1
      ['¬'] ['a'] rfl (by decide)
  · exact (c6_uncons_range_boundaries ⟨0, ['¬', 'a']⟩ 4 Nat 1 ⟨0, []⟩).1 (by decide)
  · exact (c6_uncons_range_boundaries ⟨0, []⟩ 3 Nat 1
      (⟨0, [5, 6]⟩ : ListStream Nat)).2.2.2.1 (by decide)

/-- Counterexample to claim C4: on a `&str` cursor, `distance` counts BYTES, not items.
Consuming the single two-byte scalar U+00AC with one `uncons` call leaves
`distance(checkpoint) = 2`, not the call count 1 the claim requires. -/
theorem c4_distance_counterexample :
    (strOps.uncons ⟨0, ['¬']⟩).1 = Except.ok '¬'
    ∧ strOps.distance (strOps.uncons ⟨0, ['¬']⟩).2 (strOps.checkpoint ⟨0, ['¬']⟩) = 2
    ∧ (2 : Nat) ≠ 1 :=
  ⟨rfl, rfl, by decide⟩

/-- Claim C4, amended: `distance(C)` equals the number of base units consumed since `C`
in the stream's own size measure — bytes for `&str`, items for `&[T]` — so it equals
the `len` of any range taken across the span (byte length for `&str` ranges); it equals
the count of `uncons` calls for item slices, while on `&str` each `uncons` contributes
the consumed scalar's UTF-8 byte width (the call count only when every consumed scalar
is single-byte); and immediately after `reset(C)`, `distance(C) = 0`. -/
theorem c4_distance_amended (T : Type) (itemSize : Nat) :
    (∀ (s : StrStream) size a s2, strOps.uncons_range size s = (Except.ok a, s2) →
        strOps.distance s2 (strOps.checkpoint s) = size ∧ strOps.rangeLen a = size)
    ∧ (∀ (s : StrStream) p a s2, strOps.uncons_while p s = (Except.ok a, s2) →
        strOps.distance s2 (strOps.checkpoint s) = strOps.rangeLen a)
    ∧ (∀ (s : StrStream) c s2, strOps.uncons s = (Except.ok c, s2) →
        strOps.distance s2 (strOps.checkpoint s) = c.utf8Size)
    ∧ (∀ (u : ListStream T) x u2, (listOps T itemSize).uncons u = (Except.ok x, u2) →
        (listOps T itemSize).distance u2 ((listOps T itemSize).checkpoint u) = 1)
    ∧ (∀ (u : ListStream T) size a u2,
        (listOps T itemSize).uncons_range size u = (Except.ok a, u2) →
        (listOps T itemSize).distance u2 ((listOps T itemSize).checkpoint u) = size
          ∧ (listOps T itemSize).rangeLen a = size)
    ∧ (∀ (u : ListStream T) q a u2,
        (listOps T itemSize).uncons_while q u = (Except.ok a, u2) →
        (listOps T itemSize).distance u2 ((listOps T itemSize).checkpoint u)
          = (listOps T itemSize).rangeLen a)
    ∧ (∀ s s2 : StrStream, strOps.distance (strOps.reset (strOps.checkpoint s) s2)
        (strOps.checkpoint s) = 0)
    ∧ (∀ u u2 : ListStream T, (listOps T itemSize).distance
        ((listOps T itemSize).reset ((listOps T itemSize).checkpoint u) u2)
        ((listOps T itemSize).checkpoint u) = 0) := by
  refine ⟨?_, ?_, ?_, ?_, ?_, ?_, ?_, ?_⟩
  · intro s size a s2 h
    simp only [strOps] at h
    split at h
    · split at h
      · rename_i hle ab heq
        obtain ⟨ha, hs⟩ := Prod.mk.injEq .. ▸ h
        cases ha
        obtain ⟨hsplit, hlen⟩ := takeBytes_eq_some.mp heq
        subst hs
        refine ⟨by simp [strOps], ?_⟩
        simpa [strOps] using hlen
      · exact absurd h (by simp)
    · exact absurd h (by simp)
  · intro s p a s2 h
    simp only [strOps, str_uncons_while] at h
    obtain ⟨ha, hs⟩ := Prod.mk.injEq .. ▸ h
    cases ha
    subst hs
    simp [strOps]
  · intro s c s2 h
    simp only [strOps] at h
    split at h
    · exact absurd h (by simp)
    · obtain ⟨hc, hs⟩ := Prod.mk.injEq .. ▸ h
      cases hc
      subst hs
      simp [strOps]
  · intro u x u2 h
    simp only [listOps] at h
    split at h
    · exact absurd h (by simp)
    · rename_i y ys heq
      obtain ⟨hx, hs⟩ := Prod.mk.injEq .. ▸ h
      subst hs
      simp [listOps, heq]
  · intro u size a u2 h
    simp only [listOps] at h
    split at h
    · rename_i hle
      obtain ⟨ha, hs⟩ := Prod.mk.injEq .. ▸ h
      cases ha
      subst hs
      constructor
      · simp [listOps]; omega
      · simp [listOps]; omega
    · exact absurd h (by simp)
  · intro u q a u2 h
    simp only [listOps, slice_uncons_while] at h
    obtain ⟨ha, hs⟩ := Prod.mk.injEq .. ▸ h
    cases ha
    subst hs
    have := takeWhile_length_add_dropWhile_length q u.items
    simp only [listOps]
    simp at this ⊢
    omega
  · intro s s2
    simp [strOps]
  · intro u u2
    simp [listOps]

/-- Witness for C4 (amended) at concrete inputs: a 2-byte range take, an `uncons` of a
two-byte scalar, and a slice `uncons`. -/
theorem c4_distance_amended_witness :
    (strOps.distance (⟨2, ['a']⟩ : StrStream) (strOps.checkpoint ⟨0, ['¬', 'a']⟩) = 2
      ∧ strOps.rangeLen ['¬'] = 2)
    ∧ strOps.distance (⟨2, []⟩ : StrStream) (strOps.checkpoint ⟨0, ['¬']⟩)
        = '¬'.utf8Size
    ∧ (listOps Nat 4).distance (⟨4, [9]⟩ : ListStream Nat)
        ((listOps Nat 4).checkpoint ⟨0, [8, 9]⟩) = 1 := by
  refine ⟨?_, ?_, ?_⟩
  · exact (c4_distance_amended Nat 4).1 ⟨0, ['¬', 'a']⟩ 2 ['¬'] ⟨2, ['a']⟩ rfl
  · exact (c4_distance_amended Nat 4).2.2.1 ⟨0, ['¬']⟩ '¬' ⟨2, []⟩ rfl
  · exact (c4_distance_amended Nat 4).2.2.2.1 ⟨0, [8, 9]⟩ 8 ⟨4, [9]⟩ rfl

/-- Claim C1: when the free `uncons_while`/`uncons_while1` return from the inner call
with the cursor exactly at end of input and `is_partial()` true, the result is
overridden to consumed-failure carrying `end_of_input` — after the inner success of
`uncons_while` (whose inner call is infallible for every range stream of the
repository, so this covers every reachable outcome) and in each of the three reachable
inner branches of `uncons_while1` (success `ConsumedOk` and failures `EmptyErr`,
`ConsumedErr`). In particular, a partial-wrapped `&str` cursor whose take-while
consumes the entire remaining buffer reports consumed-failure with `Eoi`, while the
same operation on a non-partial cursor over identical scalars reports consumed-success
with the full buffer as the range. -/
theorem c1_partial_eof_override {σ ι ρ π ε : Type} [DecidableEq ε]
    (ops : StreamOps σ ι ρ π ε) (p : ι → Bool) (input : σ) :
    (∀ x s, ops.uncons_while p input = (.ok x, s) → ops.isPartial s = true →
      (input_at_eof ops s).1 = true →
      Free.uncons_while ops p input =
        (.ConsumedErr (PosError.from_error (ops.position (input_at_eof ops s).2)
          ops.end_of_input), (input_at_eof ops s).2))
    ∧ (∀ r s, ops.uncons_while1 p input = (r, s) → (∀ y, r ≠ .EmptyOk y) →
        ops.isPartial s = true → (input_at_eof ops s).1 = true →
        Free.uncons_while1 ops p input =
          (.ConsumedErr (PosError.from_error (ops.position (input_at_eof ops s).2)
            ops.end_of_input), (input_at_eof ops s).2))
    ∧ (∀ (t : StrStream) (q : Char → Bool), ∃ x s2,
        strOps.uncons_while q t = (.ok x, s2))
    ∧ (∀ (T : Type) (itemSize : Nat) (u : ListStream T) (q : T → Bool), ∃ x u2,
        (listOps T itemSize).uncons_while q u = (.ok x, u2))
    ∧ (∀ (t : StrStream) (q : Char → Bool), t.chars.dropWhile q = [] →
        Free.uncons_while (PartialStream strOps) q t =
          (.ConsumedErr ⟨t.addr + utf8Len t.chars, some .Eoi⟩,
            ⟨t.addr + utf8Len t.chars, []⟩))
    ∧ (∀ (t : StrStream) (q : Char → Bool), t.chars.dropWhile q = [] → t.chars ≠ [] →
        Free.uncons_while strOps q t =
          (.ConsumedOk t.chars, ⟨t.addr + utf8Len t.chars, []⟩)) := by
  refine ⟨fun x s h hp he => ?_, fun r s h hne hp he => ?_,
    fun t q => ⟨_, _, rfl⟩, fun T itemSize u q => ⟨_, _, rfl⟩,
    fun t q hdw => ?_, fun t q hdw hne => ?_⟩
  · rcases heq : input_at_eof ops s with ⟨atEof, s2⟩
    rw [heq] at he
    subst he
    simp [Free.uncons_while, h, hp, heq]
  · rcases heq : input_at_eof ops s with ⟨atEof, s2⟩
    rw [heq] at he
    subst he
    cases r with
    | EmptyOk y => exact absurd rfl (hne y)
    | ConsumedOk y => simp [Free.uncons_while1, h, hp, heq]
    | EmptyErr e => simp [Free.uncons_while1, h, hp, heq]
    | ConsumedErr e => simp [Free.uncons_while1, h, hp, heq]
  · have hall := List.dropWhile_eq_nil_iff.mp hdw
    have htw : t.chars.takeWhile q = t.chars := List.takeWhile_eq_self_iff.mpr hall
    simp [Free.uncons_while, PartialStream, strOps, str_uncons_while, htw, hdw,
      input_at_eof, PosError.from_error]
  · have hall := List.dropWhile_eq_nil_iff.mp hdw
    have htw : t.chars.takeWhile q = t.chars := List.takeWhile_eq_self_iff.mpr hall
    simp [Free.uncons_while, strOps, str_uncons_while, htw, hdw, utf8Len_eq_zero, hne]

/-- Witness for C1 at concrete inputs: the contrast pair of the claim on the two-scalar
buffer "ab" under an all-true predicate, and the partial override after a successful
inner `uncons_while1` on "12". -/
theorem c1_partial_eof_override_witness :
    Free.uncons_while (PartialStream strOps) (fun _ => true) ⟨0, ['a', 'b']⟩
      = (.ConsumedErr ⟨2, some .Eoi⟩, ⟨2, []⟩)
    ∧ Free.uncons_while strOps (fun _ => true) ⟨0, ['a', 'b']⟩
      = (.ConsumedOk ['a', 'b'], ⟨2, []⟩)
    ∧ Free.uncons_while1 (PartialStream strOps) (fun c => c.isDigit) ⟨0, ['1', '2']⟩
      = (.ConsumedErr ⟨2, some .Eoi⟩, ⟨2, []⟩) := by
  refine ⟨?_, ?_, ?_⟩
  · exact (c1_partial_eof_override (PartialStream strOps) (fun _ => true)
      ⟨0, ['a', 'b']⟩).2.2.2.2.1 ⟨0, ['a', 'b']⟩ (fun _ => true) rfl
  · exact (c1_partial_eof_override strOps (fun _ => true)
      ⟨0, ['a', 'b']⟩).2.2.2.2.2 ⟨0, ['a', 'b']⟩ (fun _ => true) rfl (by simp)
  · exact (c1_partial_eof_override (PartialStream strOps) (fun c => c.isDigit)
      ⟨0, ['1', '2']⟩).2.1 (.ConsumedOk ['1', '2']) ⟨2, []⟩ rfl
      (fun y => by simp) rfl rfl

/-- Claim C2: for every parser and input, `decode` returns `Ok((Some(value), d))` with
`d` the distance from a checkpoint taken before parsing when the parse succeeds;
`Ok((None, d))` — not an error — when the parse fails, the input `is_partial()`, and
the error signals unexpected end of input; and `Err(error)` for any other failure. -/
theorem c2_decode_protocol {σ ι ρ π ε PS α : Type} (ops : StreamOps σ ι ρ π ε)
    (ueoi : PosError π ε → Bool)
    (parser : σ → PS → Except (PosError π ε) α × σ × PS) (input : σ) (ps : PS) :
    (∀ v s ps2, parser input ps = (.ok v, s, ps2) →
      decode ops ueoi parser input ps
        = (.ok (some v, ops.distance s (ops.checkpoint input)), s, ps2))
    ∧ (∀ e s ps2, parser input ps = (.error e, s, ps2) → ops.isPartial s = true →
        ueoi e = true →
        decode ops ueoi parser input ps
          = (.ok (none, ops.distance s (ops.checkpoint input)), s, ps2))
    ∧ (∀ e s ps2, parser input ps = (.error e, s, ps2) →
        (ops.isPartial s && ueoi e) = false →
        decode ops ueoi parser input ps = (.error e, s, ps2)) := by
  refine ⟨fun v s ps2 h => ?_, fun e s ps2 h hp hu => ?_, fun e s ps2 h hf => ?_⟩
  · simp [decode, h]
  · simp [decode, h, hp, hu]
  · simp [decode, h, hf]

/-- Witness for C2 at concrete inputs: a parser that consumes the whole buffer and
succeeds, a partial-input parse failing with end-of-input (yielding `Ok(None, 0)`), and
a non-partial failure propagating as an error. -/
theorem c2_decode_protocol_witness :
    decode strOps (fun e => decide (e.error = some .Eoi))
      (fun s _ => (.ok s.chars.length, ⟨s.addr + utf8Len s.chars, []⟩, ()))
      ⟨0, ['a', 'b']⟩ ()
      = (.ok (some 2, 2), ⟨2, []⟩, ())
    ∧ decode (PartialStream strOps) (fun e => decide (e.error = some .Eoi))
      (fun _ ps => ((.error ⟨0, some .Eoi⟩ : Except (PosError Nat StringStreamError) Nat),
        ⟨0, ['a']⟩, ps)) ⟨0, ['a']⟩ ()
      = (.ok (none, 0), ⟨0, ['a']⟩, ())
    ∧ decode strOps (fun e => decide (e.error = some .Eoi))
      (fun _ ps => ((.error ⟨0, some .UnexpectedParse⟩
          : Except (PosError Nat StringStreamError) Nat), ⟨0, ['a']⟩, ps)) ⟨0, ['a']⟩ ()
      = (.error ⟨0, some .UnexpectedParse⟩, ⟨0, ['a']⟩, ()) := by
  refine ⟨?_, ?_, ?_⟩
  · exact (c2_decode_protocol strOps (fun e => decide (e.error = some .Eoi))
      (fun s _ => (.ok s.chars.length, ⟨s.addr + utf8Len s.chars, []⟩, ()))
      ⟨0, ['a', 'b']⟩ ()).1 2 ⟨2, []⟩ () rfl
  · exact (c2_decode_protocol (PartialStream strOps)
      (fun e => decide (e.error = some .Eoi))
      (fun _ ps => ((.error ⟨0, some .Eoi⟩ : Except (PosError Nat StringStreamError) Nat),
        ⟨0, ['a']⟩, ps)) ⟨0, ['a']⟩ ()).2.1
      ⟨0, some .Eoi⟩ ⟨0, ['a']⟩ () rfl rfl rfl
  · exact (c2_decode_protocol strOps (fun e => decide (e.error = some .Eoi))
      (fun _ ps => ((.error ⟨0, some .UnexpectedParse⟩
        : Except (PosError Nat StringStreamError) Nat), ⟨0, ['a']⟩, ps))
      ⟨0, ['a']⟩ ()).2.2 ⟨0, some .UnexpectedParse⟩ ⟨0, ['a']⟩ () rfl rfl

end Combine
